import Mathlib

/-!
Shallow embedding of the `memory-mcp` repository's v2 memory store and its
retrieval pipeline, together with proofs about the specified behaviour.

Modelling conventions:
* JavaScript numbers are modelled by `JsNum`: either a finite rational or one
  of the non-finite values (`NaN`, `Infinity`, `-Infinity`).  Exact rational
  and real arithmetic stands in for IEEE doubles.
* Timestamps (ISO strings in the source) are modelled as integers
  (milliseconds since the epoch); `Date.now()` and `nowIso()` become an
  explicit `now : Int` argument.
* The SQLite table is a list of rows in rowid order; SQL statements become
  pure list transformations.  `randomUUID()` becomes an explicit id argument.
-/

/-- A JavaScript number: a finite rational, or NaN / +Infinity / -Infinity. -/
inductive JsNum where
  | fin (q : ℚ)
  | nan
  | inf
  | ninf
deriving DecidableEq, Repr

namespace JsNum

/-- JavaScript's `Number.isFinite`. -/
def isFinite : JsNum → Bool
  | fin _ => true
  | _ => false

/-- The rational value of a finite `JsNum` (0 for the non-finite values;
only read behind an `isFinite` test, mirroring the source). -/
def val : JsNum → ℚ
  | fin q => q
  | _ => 0

/-- JavaScript's `Math.trunc`: round toward zero. -/
def trunc (q : ℚ) : ℤ :=
  if q < 0 then ⌈q⌉ else ⌊q⌋

end JsNum

/-- The accumulation loop of `cosineSimilarity` (src/util.ts lines 22-29):
walks the paired prefix, skipping any pair with a non-finite member, and
accumulates `(dot, normA, normB)`. -/
def simGo : List (JsNum × JsNum) → ℚ × ℚ × ℚ
  | [] => (0, 0, 0)
  | (x, y) :: rest =>
    let p := simGo rest
    if x.isFinite && y.isFinite then
      (p.1 + x.val * y.val, p.2.1 + x.val * x.val, p.2.2 + y.val * y.val)
    else p

/-- The triple `(dot, normA, normB)` for two vectors: the loop runs over
`min a.length b.length` pairs, which `List.zip` supplies. -/
def simParts (a b : List JsNum) : ℚ × ℚ × ℚ :=
  simGo (a.zip b)

/-- Function `cosineSimilarity` from src/util.ts: 0 when either argument is absent
(`Array.isArray` fails), when the overlapping length is 0, or when either
accumulated norm is 0; otherwise `dot / sqrt(normA * normB)`. -/
noncomputable def cosineSimilarity (a? b? : Option (List JsNum)) : ℝ :=
  match a?, b? with
  | some a, some b =>
    if min a.length b.length = 0 then 0
    else if (simParts a b).2.1 = 0 ∨ (simParts a b).2.2 = 0 then 0
    else ((simParts a b).1 : ℝ) /
      Real.sqrt (((simParts a b).2.1 : ℝ) * ((simParts a b).2.2 : ℝ))
  | _, _ => 0

-- Basic facts about the accumulation loop.

theorem simGo_swap (l : List (JsNum × JsNum)) :
    (simGo (l.map Prod.swap)).1 = (simGo l).1 ∧
    (simGo (l.map Prod.swap)).2.1 = (simGo l).2.2 ∧
    (simGo (l.map Prod.swap)).2.2 = (simGo l).2.1 := by
  induction l with
  | nil => simp [simGo]
  | cons p rest ih =>
    obtain ⟨h1, h2, h3⟩ := ih
    cases p with
    | mk x y =>
      cases hx : x.isFinite <;> cases hy : y.isFinite <;>
        simp [simGo, hx, hy, h1, h2, h3, mul_comm]

theorem simParts_comm (a b : List JsNum) :
    (simParts b a).1 = (simParts a b).1 ∧
    (simParts b a).2.1 = (simParts a b).2.2 ∧
    (simParts b a).2.2 = (simParts a b).2.1 := by
  have hz : b.zip a = (a.zip b).map Prod.swap := by
    rw [List.zip_swap]
  rw [simParts, simParts, hz]
  exact simGo_swap (a.zip b)

theorem simGo_nonneg (l : List (JsNum × JsNum)) :
    0 ≤ (simGo l).2.1 ∧ 0 ≤ (simGo l).2.2 := by
  induction l with
  | nil => simp [simGo]
  | cons p rest ih =>
    obtain ⟨h1, h2⟩ := ih
    cases p with
    | mk x y =>
      cases hx : x.isFinite <;> cases hy : y.isFinite <;>
        · simp only [simGo, hx, hy]
          simp only [Bool.and_false, Bool.and_true, Bool.false_and, Bool.true_and,
            Bool.and_self, if_false, if_true, Bool.false_eq_true, reduceIte]
          constructor <;> nlinarith [mul_self_nonneg x.val, mul_self_nonneg y.val]

/-- Cauchy–Schwarz for the accumulated triple: `dot² ≤ normA * normB`. -/
theorem simGo_cauchySchwarz (l : List (JsNum × JsNum)) :
    (simGo l).1 ^ 2 ≤ (simGo l).2.1 * (simGo l).2.2 := by
  induction l with
  | nil => simp [simGo]
  | cons p rest ih =>
    obtain ⟨hna, hnb⟩ := simGo_nonneg rest
    cases p with
    | mk x y =>
      cases hx : x.isFinite <;> cases hy : y.isFinite <;>
        simp only [simGo, hx, hy, Bool.and_false, Bool.and_true, Bool.false_and,
          Bool.true_and, Bool.and_self, if_false, if_true, Bool.false_eq_true, reduceIte]
      · exact ih
      · exact ih
      · exact ih
      · set d := (simGo rest).1 with hd
        set na := (simGo rest).2.1 with hna2
        set nb := (simGo rest).2.2 with hnb2
        rcases eq_or_lt_of_le hna with h0 | hpos
        · have hdz : d = 0 := by
            have : d ^ 2 ≤ 0 := by nlinarith
            nlinarith [sq_nonneg d]
          rw [hdz, ← h0]
          nlinarith [mul_nonneg (mul_self_nonneg x.val) hnb,
            mul_nonneg (mul_self_nonneg x.val) (mul_self_nonneg y.val)]
        · nlinarith [sq_nonneg (na * y.val - x.val * d),
            mul_nonneg hna (sub_nonneg.mpr ih),
            mul_nonneg (mul_self_nonneg x.val) (sub_nonneg.mpr ih), hpos]

/-- Zipping a list with itself pairs each element with itself. -/
theorem zip_diagonal (a : List JsNum) : a.zip a = a.map (fun x => (x, x)) := by
  induction a with
  | nil => rfl
  | cons x rest ih => simp [List.zip_cons_cons, ih]

/-- On the diagonal the three accumulators agree. -/
theorem simGo_self (a : List JsNum) :
    (simGo (a.map (fun x => (x, x)))).1 = (simGo (a.map (fun x => (x, x)))).2.1 ∧
    (simGo (a.map (fun x => (x, x)))).2.2 = (simGo (a.map (fun x => (x, x)))).2.1 := by
  induction a with
  | nil => simp [simGo]
  | cons x rest ih =>
    obtain ⟨h1, h2⟩ := ih
    cases hx : x.isFinite <;> simp [simGo, hx, h1, h2]

theorem simGo_self_pos (a : List JsNum) (x : JsNum) (hx : x ∈ a)
    (hfin : x.isFinite = true) (hval : x.val ≠ 0) :
    0 < (simGo (a.map (fun y => (y, y)))).2.1 := by
  induction a with
  | nil => simp at hx
  | cons y rest ih =>
    have hnn := (simGo_nonneg (rest.map (fun y => (y, y)))).1
    rcases List.mem_cons.mp hx with h | h
    · subst h
      simp only [List.map_cons, simGo, hfin, Bool.and_self, if_true]
      nlinarith [mul_self_pos.mpr hval]
    · have hpos := ih h
      cases hy : y.isFinite <;>
        · simp only [List.map_cons, simGo, hy, Bool.and_self, if_true, if_false,
            Bool.false_eq_true, reduceIte]
          nlinarith [mul_self_nonneg y.val]

theorem cosineSimilarity_comm (a b : List JsNum) :
    cosineSimilarity (some b) (some a) = cosineSimilarity (some a) (some b) := by
  obtain ⟨h1, h2, h3⟩ := simParts_comm a b
  simp only [cosineSimilarity, h1, h2, h3, min_comm b.length a.length]
  by_cases hmin : min a.length b.length = 0
  · simp [hmin]
  · simp only [hmin, if_false]
    by_cases hz : (simParts a b).2.1 = 0 ∨ (simParts a b).2.2 = 0
    · simp [hz, or_comm.mp hz]
    · have hz' : ¬((simParts a b).2.2 = 0 ∨ (simParts a b).2.1 = 0) := fun h =>
        hz (or_comm.mp h)
      simp only [hz, hz', if_false]
      rw [mul_comm]

theorem cosineSimilarity_self_eq_one (a : List JsNum)
    (hfin : ∀ x ∈ a, x.isFinite = true) (hnz : ∃ x ∈ a, x.val ≠ 0) :
    cosineSimilarity (some a) (some a) = 1 := by
  obtain ⟨x, hxa, hxv⟩ := hnz
  have hne : a ≠ [] := by rintro rfl; simp at hxa
  have hmin : ¬min a.length a.length = 0 := by
    simpa [List.length_eq_zero] using hne
  have hdiag : a.zip a = a.map (fun y => (y, y)) := zip_diagonal a
  have hpos : 0 < (simParts a a).2.1 := by
    rw [simParts, hdiag]
    exact simGo_self_pos a x hxa (hfin x hxa) hxv
  obtain ⟨hs1, hs2⟩ := simGo_self a
  have hd : (simParts a a).1 = (simParts a a).2.1 := by
    rw [simParts, hdiag]; exact hs1
  have hb : (simParts a a).2.2 = (simParts a a).2.1 := by
    rw [simParts, hdiag]; exact hs2
  have hcond : ¬((simParts a a).2.1 = 0 ∨ (simParts a a).2.1 = 0) := fun h =>
    absurd (h.elim id id) (ne_of_gt hpos)
  simp only [cosineSimilarity, hmin, if_false, hd, hb]
  rw [if_neg hcond]
  have hcast : (0 : ℝ) < ((simParts a a).2.1 : ℝ) := by exact_mod_cast hpos
  rw [Real.sqrt_mul_self hcast.le]
  exact div_self (ne_of_gt hcast)

theorem cosineSimilarity_le_one (a? b? : Option (List JsNum)) :
    cosineSimilarity a? b? ≤ 1 := by
  match a?, b? with
  | none, _ => simp [cosineSimilarity]
  | some _, none => simp [cosineSimilarity]
  | some a, some b =>
    simp only [cosineSimilarity]
    by_cases hmin : min a.length b.length = 0
    · simp [hmin]
    · simp only [hmin, if_false]
      by_cases hz : (simParts a b).2.1 = 0 ∨ (simParts a b).2.2 = 0
      · simp [hz]
      · simp only [hz, if_false]
        push_neg at hz
        obtain ⟨hna, hnb⟩ := simGo_nonneg (a.zip b)
        have hna' : 0 < (simParts a b).2.1 := lt_of_le_of_ne hna (Ne.symm hz.1)
        have hnb' : 0 < (simParts a b).2.2 := lt_of_le_of_ne hnb (Ne.symm hz.2)
        have hcs := simGo_cauchySchwarz (a.zip b)
        have hprod : (0 : ℝ) < ((simParts a b).2.1 : ℝ) * ((simParts a b).2.2 : ℝ) := by
          have := mul_pos hna' hnb'
          exact_mod_cast this
        rw [div_le_one (Real.sqrt_pos.mpr hprod)]
        calc ((simParts a b).1 : ℝ) ≤ |((simParts a b).1 : ℝ)| := le_abs_self _
          _ = Real.sqrt (((simParts a b).1 : ℝ) ^ 2) := (Real.sqrt_sq_eq_abs _).symm
          _ ≤ Real.sqrt (((simParts a b).2.1 : ℝ) * ((simParts a b).2.2 : ℝ)) := by
              apply Real.sqrt_le_sqrt
              exact_mod_cast hcs

theorem cosineSimilarity_nonneg_cases (a? b? : Option (List JsNum)) :
    cosineSimilarity a? b? = 0 ∨
      ∃ a b, a? = some a ∧ b? = some b ∧
        0 < (simParts a b).2.1 ∧ 0 < (simParts a b).2.2 := by
  match a?, b? with
  | none, _ => exact Or.inl (by simp [cosineSimilarity])
  | some _, none => exact Or.inl (by simp [cosineSimilarity])
  | some a, some b =>
    by_cases hmin : min a.length b.length = 0
    · exact Or.inl (by simp [cosineSimilarity, hmin])
    · by_cases hz : (simParts a b).2.1 = 0 ∨ (simParts a b).2.2 = 0
      · exact Or.inl (by simp [cosineSimilarity, hmin, hz])
      · push_neg at hz
        obtain ⟨hna, hnb⟩ := simGo_nonneg (a.zip b)
        exact Or.inr ⟨a, b, rfl, rfl,
          lt_of_le_of_ne hna (Ne.symm hz.1), lt_of_le_of_ne hnb (Ne.symm hz.2)⟩

/-- Claim C7: the similarity function is symmetric (for all finite vectors of
equal length `similarity(a,b) = similarity(b,a)`), self-similarity of any
non-zero finite vector lies in `[0.999, 1.0]`, and the function returns 0
whenever either vector is empty, absent, or has zero accumulated norm. -/
theorem C7_cosine_properties :
    (∀ a b : List JsNum, a.length = b.length →
      (∀ x ∈ a, x.isFinite = true) → (∀ x ∈ b, x.isFinite = true) →
      cosineSimilarity (some a) (some b) = cosineSimilarity (some b) (some a))
    ∧ (∀ a : List JsNum, (∀ x ∈ a, x.isFinite = true) → (∃ x ∈ a, x.val ≠ 0) →
      (0.999 : ℝ) ≤ cosineSimilarity (some a) (some a) ∧
        cosineSimilarity (some a) (some a) ≤ 1)
    ∧ (∀ b? : Option (List JsNum),
      cosineSimilarity none b? = 0 ∧ cosineSimilarity b? none = 0)
    ∧ (∀ a b : List JsNum, a = [] ∨ b = [] →
      cosineSimilarity (some a) (some b) = 0)
    ∧ (∀ a b : List JsNum, (simParts a b).2.1 = 0 ∨ (simParts a b).2.2 = 0 →
      cosineSimilarity (some a) (some b) = 0) := by
  refine ⟨?_, ?_, ?_, ?_, ?_⟩
  · intro a b _ _ _
    exact (cosineSimilarity_comm a b).symm
  · intro a hfin hnz
    rw [cosineSimilarity_self_eq_one a hfin hnz]
    norm_num
  · intro b?
    constructor
    · simp [cosineSimilarity]
    · match b? with
      | none => simp [cosineSimilarity]
      | some _ => simp [cosineSimilarity]
  · intro a b h
    rcases h with h | h <;> subst h <;> simp [cosineSimilarity]
  · intro a b hz
    by_cases hmin : min a.length b.length = 0 <;>
      simp [cosineSimilarity, hmin, hz]

theorem C7_cosine_properties_witness :
    cosineSimilarity (some [JsNum.fin 1, JsNum.fin 2]) (some [JsNum.fin 2, JsNum.fin 3])
      = cosineSimilarity (some [JsNum.fin 2, JsNum.fin 3]) (some [JsNum.fin 1, JsNum.fin 2])
    ∧ ((0.999 : ℝ) ≤ cosineSimilarity (some [JsNum.fin 3]) (some [JsNum.fin 3])
      ∧ cosineSimilarity (some [JsNum.fin 3]) (some [JsNum.fin 3]) ≤ 1)
    ∧ cosineSimilarity (some ([] : List JsNum)) (some ([JsNum.fin 1])) = 0
    ∧ cosineSimilarity (some [JsNum.fin 0]) (some [JsNum.fin 1]) = 0 :=
  ⟨C7_cosine_properties.1 _ _ rfl (by decide) (by decide),
   C7_cosine_properties.2.1 _ (by decide)
     ⟨JsNum.fin 3, by simp, by norm_num [JsNum.val]⟩,
   C7_cosine_properties.2.2.2.1 _ _ (Or.inl rfl),
   C7_cosine_properties.2.2.2.2 _ _
     (Or.inl (by norm_num [simParts, simGo, JsNum.val, JsNum.isFinite]))⟩

/-- A JSON value as far as the embedding code distinguishes shapes: a number,
an array, or anything else (`string`, `bool`, `object`, `null`). -/
inductive Jx where
  | num (x : JsNum)
  | arr (elems : List Jx)
  | other

/-- Raw content of the stored `embedding` column: either text that
`JSON.parse` rejects, or text that parses to the given value. -/
inductive EmbCol where
  | malformed
  | json (v : Jx)

/-- A typed `number[]` argument viewed as a JS value. -/
def jsArr (l : List JsNum) : Jx :=
  .arr (l.map Jx.num)

/-- The cleaning loop of `normalizeEmbedding` (part_002 lines 56-61): keep
finite numbers, skip everything else, and stop once `cap` values are kept
(the source pushes, then breaks when the kept count reaches 4096). -/
def cleanNums (cap : ℕ) : List Jx → List ℚ
  | [] => []
  | .num (JsNum.fin q) :: rest => if cap ≤ 1 then [q] else q :: cleanNums (cap - 1) rest
  | _ :: rest => cleanNums cap rest

/-- Method `MemoryStore.normalizeEmbedding` (part_002 lines 54-63): `none`
unless the value is an array; otherwise the cleaned finite numbers, or `none`
when nothing survives cleaning. -/
def normalizeEmbedding (vec : Option Jx) : Option (List ℚ) :=
  match vec with
  | some (.arr xs) =>
    let cleaned := cleanNums 4096 xs
    if cleaned.length > 0 then some cleaned else none
  | _ => none

/-- The column text written by `JSON.stringify(cleaned)`, as it re-parses. -/
def encodeEmbedding (l : List ℚ) : EmbCol :=
  .json (.arr (l.map (fun q => Jx.num (JsNum.fin q))))

/-- Method `MemoryStore.parseEmbedding` (part_002 lines 65-73): `none` for a
null column, `none` when `JSON.parse` throws (caught), otherwise
`normalizeEmbedding` of the parsed value. -/
def parseEmbedding (raw : Option EmbCol) : Option (List ℚ) :=
  match raw with
  | none => none
  | some .malformed => none
  | some (.json v) => normalizeEmbedding (some v)

/-- One row of the `memories_v2` table. -/
structure Row where
  id : String
  subject : String
  content : String
  dateCreated : ℤ
  dateUpdated : ℤ
  expiresAt : Option ℤ
  embedding : Option EmbCol

/-- The `MemoryItem` record handed to callers (src/types.ts, v2 variant). -/
structure Item where
  id : String
  subject : String
  content : String
  dateCreated : ℤ
  dateUpdated : ℤ
  expiresAt : Option ℤ
  embedding : Option (List ℚ)
deriving DecidableEq, Repr

namespace MemoryStore

/-- The table contents in rowid order. -/
abbrev Store := List Row

/-- Method `MemoryStore.rowToItem` (part_002 lines 252-263). -/
def rowToItem (r : Row) : Item :=
  { id := r.id, subject := r.subject, content := r.content,
    dateCreated := r.dateCreated, dateUpdated := r.dateUpdated,
    expiresAt := r.expiresAt, embedding := parseEmbedding r.embedding }

/-- The `where` clause of `cleanupExpired`: `expires_at` non-null and `≤ now`. -/
def isExpired (now : ℤ) (r : Row) : Bool :=
  match r.expiresAt with
  | some t => decide (t ≤ now)
  | none => false

/-- Method `MemoryStore.cleanupExpired` (part_002 lines 93-98). -/
def cleanupExpired (now : ℤ) (st : Store) : Store :=
  st.filter (fun r => !isExpired now r)

/-- The `expiresAt` computation of `insert` (part_002 lines 104-106). -/
def ttlToExpiresAt (now : ℤ) (ttlDays : Option JsNum) : Option ℤ :=
  match ttlDays with
  | some x => if x.isFinite then some (now + JsNum.trunc x.val * 86400000) else none
  | none => none

/-- Method `MemoryStore.insert` (part_002 lines 100-122); `newId` stands for
`randomUUID()` and `now` for `nowIso()` / `Date.now()`. -/
def insert (newId : String) (now : ℤ) (subject content : String)
    (ttlDays : Option JsNum) (embedding : Option (List JsNum)) (st : Store) :
    Store × String :=
  (st ++ [{ id := newId, subject := subject, content := content,
            dateCreated := now, dateUpdated := now,
            expiresAt := ttlToExpiresAt now ttlDays,
            embedding := (normalizeEmbedding (embedding.map jsArr)).map encodeEmbedding }],
   newId)

/-- The patch accepted by `MemoryStore.update`; `none` means the field was
absent (`undefined`). -/
structure Patch where
  subject : Option String
  content : Option String
  ttlDays : Option JsNum
  expiresAt : Option ℤ
  embedding : Option (List JsNum)
deriving DecidableEq, Repr

/-- A patch with no fields supplied. -/
def emptyPatch : Patch :=
  ⟨none, none, none, none, none⟩

/-- The effect of the assignment list built by `update` (part_002 lines
126-141) on the targeted row.  Assignments are applied left to right in push
order — subject, content, the `ttlDays`-derived `expires_at`, the explicit
`expires_at`, embedding, then `date_updated` — so for a column assigned twice
the rightmost assignment wins, which is SQLite's rule for duplicate
assignments in one UPDATE. -/
def applyPatch (now : ℤ) (p : Patch) (r : Row) : Row :=
  let r1 := match p.subject with
    | some s => { r with subject := s }
    | none => r
  let r2 := match p.content with
    | some c => { r1 with content := c }
    | none => r1
  let r3 := match p.ttlDays with
    | some x => { r2 with expiresAt :=
        if x.isFinite then some (now + JsNum.trunc x.val * 86400000) else none }
    | none => r2
  let r4 := match p.expiresAt with
    | some e => { r3 with expiresAt := some e }
    | none => r3
  let r5 := match p.embedding with
    | some v => { r4 with embedding :=
        (normalizeEmbedding (some (jsArr v))).map encodeEmbedding }
    | none => r4
  { r5 with dateUpdated := now }

/-- Method `MemoryStore.update` (part_002 lines 124-146): one UPDATE
statement over the rows whose `id` matches. -/
def update (now : ℤ) (id : String) (p : Patch) (st : Store) : Store :=
  st.map (fun r => if r.id = id then applyPatch now p r else r)

/-- Method `MemoryStore.get` (part_002 lines 153-158): first row whose id
matches, mapped through `rowToItem`; `none` when absent. -/
def get (st : Store) (id : String) : Option Item :=
  (st.find? (fun r => r.id == id)).map rowToItem

/-- The `order by date_updated desc` used by `list` and the LIKE fallback. -/
def sortByUpdatedDesc (st : Store) : Store :=
  st.mergeSort (fun a b => decide (b.dateUpdated ≤ a.dateUpdated))

/-- Method `MemoryStore.list` (part_002 lines 160-164). -/
def list (st : Store) (limit : ℕ) : List Item :=
  ((sortByUpdatedDesc st).take limit).map rowToItem

/-- An item of a bulk import (part_002 line 172): a `MemoryItem` without
`id`, `dateCreated` and `dateUpdated`. -/
structure ImportItem where
  subject : String
  content : String
  expiresAt : Option ℤ
  embedding : Option (List JsNum)
deriving DecidableEq, Repr

/-- The row inserted for one import item (part_002 lines 176-192): a fresh
id and fresh timestamps, never taken from the item. -/
def importRow (newId : String) (now : ℤ) (it : ImportItem) : Row :=
  { id := newId, subject := it.subject, content := it.content,
    dateCreated := now, dateUpdated := now, expiresAt := it.expiresAt,
    embedding := (normalizeEmbedding (it.embedding.map jsArr)).map encodeEmbedding }

/-- The insert loop inside the transaction of `importAll`; `err` is the
storage engine's verdict on each row insert (`some e` = the statement
rejects the row with error `e`). -/
def importGo (err : ImportItem → Option String) (newId : ℕ → String) (now : ℤ) :
    List ImportItem → ℕ → Store → Except String Store
  | [], _, acc => .ok acc
  | it :: rest, i, acc =>
    match err it with
    | some e => .error e
    | none => importGo err newId now rest (i + 1) (acc ++ [importRow (newId i) now it])

/-- Method `MemoryStore.importAll` (part_002 lines 172-199): `BEGIN
IMMEDIATE`, the insert loop, then COMMIT on success; on any failure ROLLBACK
restores the snapshot (a failure of the ROLLBACK itself — `rollbackFails` —
is swallowed by the `.catch` and changes nothing) and the original error is
re-thrown. -/
def importAll (err : ImportItem → Option String) (newId : ℕ → String) (now : ℤ)
    (rollbackFails : Bool) (items : List ImportItem) (st : Store) :
    Store × Option String :=
  match importGo err newId now items 0 st with
  | .ok s => (s, none)
  | .error e => (st, some e)

/-- The full-text index as an external capability: whether a given query
executes at all (FTS present and the query syntactically acceptable), and
which rows it matches. -/
structure FtsEnv where
  ok : String → Bool
  hits : String → Row → Bool

/-- Drop leading whitespace characters. -/
def dropLeadingWs : List Char → List Char
  | [] => []
  | c :: rest => if c.isWhitespace then dropLeadingWs rest else c :: rest

/-- JavaScript's `String.prototype.trim`: strip whitespace at both ends. -/
def jsTrim (s : String) : String :=
  String.mk ((dropLeadingWs ((dropLeadingWs s.data).reverse)).reverse)

/-- Whether `needle` occurs at the head of `hay`. -/
def headMatch : List Char → List Char → Bool
  | [], _ => true
  | _ :: _, [] => false
  | c :: cs, d :: ds => c == d && headMatch cs ds

/-- Whether `needle` occurs anywhere inside `hay`. -/
def subMatch (needle : List Char) : List Char → Bool
  | [] => needle.isEmpty
  | hay@(_ :: rest) => headMatch needle hay || subMatch needle rest

/-- The LIKE fallback predicate: case-insensitive substring match over
subject or content (the escaping in the source makes the pattern match the
literal query text). -/
def likeMatch (q : String) (r : Row) : Bool :=
  subMatch q.toLower.toList r.subject.toLower.toList ||
    subMatch q.toLower.toList r.content.toLower.toList

/-- The re-ranking step shared by the vector branches of `search`: score by
cosine similarity against the query vector, sort descending (JS stable
sort with comparator `b.sim - a.sim`), truncate to `k`. -/
noncomputable def rankBySim (qe : List ℚ) (k : ℕ) (items : List Item) : List Item :=
  ((((items.map (fun it => (it,
      cosineSimilarity (some (qe.map JsNum.fin)) (it.embedding.map (fun l => l.map JsNum.fin)))))).mergeSort
      (fun a b => decide (b.2 ≤ a.2))).take k).map Prod.fst

/-- Method `MemoryStore.search` (part_002 lines 201-250). -/
noncomputable def search (env : FtsEnv) (st : Store) (query : Option String)
    (k : ℕ) (embedding : Option (List JsNum)) : List Item :=
  let trimmed := jsTrim (query.getD "")
  let hasQuery : Bool := decide (0 < trimmed.length)
  let qe := normalizeEmbedding (embedding.map jsArr)
  let fetchMultiplier : ℕ := if qe.isSome then 6 else 4
  match hasQuery, qe with
  | false, some q =>
    let limit := max (k * fetchMultiplier) 50
    let rows := (sortByUpdatedDesc (st.filter (fun r => r.embedding.isSome))).take limit
    rankBySim q k (rows.map rowToItem)
  | false, none => list st (max 50 (k * fetchMultiplier))
  | true, qe' =>
    if env.ok trimmed then
      let rows := (st.filter (env.hits trimmed)).take (k * fetchMultiplier)
      match qe' with
      | none => rows.map rowToItem
      | some q => rankBySim q k (rows.map rowToItem)
    else
      let rows := (sortByUpdatedDesc (st.filter (likeMatch trimmed))).take (k * fetchMultiplier)
      match qe' with
      | none => rows.map rowToItem
      | some q => rankBySim q k (rows.map rowToItem)

end MemoryStore

namespace MemoryStore

theorem applyPatch_expiresAt_of_explicit (now : ℤ) (p : Patch) (r : Row) (e : ℤ)
    (hp : p.expiresAt = some e) : (applyPatch now p r).expiresAt = some e := by
  rcases p with ⟨ps, pc, pt, pe, pb⟩
  simp only [Patch.expiresAt] at hp
  subst hp
  cases ps <;> cases pc <;> cases pt <;> cases pb <;> simp [applyPatch]

theorem applyPatch_expiresAt_of_bad_ttl (now : ℤ) (p : Patch) (r : Row) (x : JsNum)
    (hp : p.ttlDays = some x) (hfin : x.isFinite = false) (hpe : p.expiresAt = none) :
    (applyPatch now p r).expiresAt = none := by
  rcases p with ⟨ps, pc, pt, pe, pb⟩
  simp only [Patch.ttlDays] at hp
  simp only [Patch.expiresAt] at hpe
  subst hp; subst hpe
  cases ps <;> cases pc <;> cases pb <;> simp [applyPatch, hfin]

theorem applyPatch_id (now : ℤ) (p : Patch) (r : Row) :
    (applyPatch now p r).id = r.id := by
  rcases p with ⟨ps, pc, pt, pe, pb⟩
  cases ps <;> cases pc <;> cases pt <;> cases pe <;> cases pb <;> simp [applyPatch]

end MemoryStore

/-- Claim C3, counterexample: an empty patch does not leave the stored record
unchanged — `date_updated` is always pushed onto the assignment list (the
`fields.length === 0` early return sits after that push and is dead code), so
the row's `dateUpdated` moves to the call time. -/
theorem C3_counterexample :
    MemoryStore.update 1 "a" MemoryStore.emptyPatch
        [{ id := "a", subject := "s", content := "c", dateCreated := 0,
           dateUpdated := 0, expiresAt := none, embedding := none }] ≠
      [{ id := "a", subject := "s", content := "c", dateCreated := 0,
         dateUpdated := 0, expiresAt := none, embedding := none }] := by
  intro h
  have h2 := congrArg (fun l => l.map Row.dateUpdated) h
  simp [MemoryStore.update, MemoryStore.applyPatch, MemoryStore.emptyPatch] at h2

/-- Claim C3 (amended): for every stored record id, `update(id, {})` with an
empty patch succeeds without error and leaves subject, content, expiresAt and
embedding of every row unchanged; only `dateUpdated` of the matching rows is
refreshed to the call time. -/
theorem C3_amended_empty_patch (now : ℤ) (id : String) (st : MemoryStore.Store) :
    MemoryStore.update now id MemoryStore.emptyPatch st =
      st.map (fun r => if r.id = id then { r with dateUpdated := now } else r) :=
  rfl

/-- Claim C5: when one update patch carries both `ttlDays` and an explicit
`expiresAt` string, the stored `expires_at` afterwards is the explicit value:
the explicit assignment is pushed after the ttl-derived one and the rightmost
assignment wins. -/
theorem C5_explicit_expiresAt_wins (now : ℤ) (id : String) (p : MemoryStore.Patch)
    (x : JsNum) (e : ℤ) (hp1 : p.ttlDays = some x) (hp2 : p.expiresAt = some e)
    (st : MemoryStore.Store) :
    ∀ r ∈ MemoryStore.update now id p st, r.id = id → r.expiresAt = some e := by
  intro r hr hid
  simp only [MemoryStore.update, List.mem_map] at hr
  obtain ⟨r0, hr0, hrq⟩ := hr
  by_cases hc : r0.id = id
  · rw [if_pos hc] at hrq
    rw [← hrq]
    exact MemoryStore.applyPatch_expiresAt_of_explicit now p r0 e hp2
  · rw [if_neg hc] at hrq
    rw [← hrq] at hid
    exact absurd hid hc

theorem C5_explicit_expiresAt_wins_witness :
    (MemoryStore.applyPatch 5 ⟨none, none, some (JsNum.fin 7), some 99, none⟩
      { id := "a", subject := "s", content := "c", dateCreated := 0,
        dateUpdated := 0, expiresAt := some 3, embedding := none }).expiresAt
      = some 99 :=
  C5_explicit_expiresAt_wins 5 "a" ⟨none, none, some (JsNum.fin 7), some 99, none⟩
    (JsNum.fin 7) 99 rfl rfl
    [{ id := "a", subject := "s", content := "c", dateCreated := 0,
       dateUpdated := 0, expiresAt := some 3, embedding := none }]
    (MemoryStore.applyPatch 5 ⟨none, none, some (JsNum.fin 7), some 99, none⟩
      { id := "a", subject := "s", content := "c", dateCreated := 0,
        dateUpdated := 0, expiresAt := some 3, embedding := none })
    (List.mem_singleton.mpr rfl) rfl

/-- Claim C10: an update whose `ttlDays` is present but not a finite number
(for example `NaN`) and which carries no explicit `expiresAt` sets the
stored `expires_at` to null — clearing any existing expiry — rather than
erroring or leaving it unchanged. -/
theorem C10_nonfinite_ttl_clears_expiry (now : ℤ) (id : String)
    (p : MemoryStore.Patch) (x : JsNum) (hx : p.ttlDays = some x)
    (hfin : x.isFinite = false) (hne : p.expiresAt = none)
    (st : MemoryStore.Store) :
    ∀ r ∈ MemoryStore.update now id p st, r.id = id → r.expiresAt = none := by
  intro r hr hid
  simp only [MemoryStore.update, List.mem_map] at hr
  obtain ⟨r0, hr0, hrq⟩ := hr
  by_cases hc : r0.id = id
  · rw [if_pos hc] at hrq
    rw [← hrq]
    exact MemoryStore.applyPatch_expiresAt_of_bad_ttl now p r0 x hx hfin hne
  · rw [if_neg hc] at hrq
    rw [← hrq] at hid
    exact absurd hid hc

theorem C10_nonfinite_ttl_clears_expiry_witness :
    (MemoryStore.applyPatch 5 ⟨none, none, some JsNum.nan, none, none⟩
      { id := "a", subject := "s", content := "c", dateCreated := 0,
        dateUpdated := 0, expiresAt := some 3, embedding := none }).expiresAt
      = none :=
  C10_nonfinite_ttl_clears_expiry 5 "a" ⟨none, none, some JsNum.nan, none, none⟩
    JsNum.nan rfl rfl rfl
    [{ id := "a", subject := "s", content := "c", dateCreated := 0,
       dateUpdated := 0, expiresAt := some 3, embedding := none }]
    (MemoryStore.applyPatch 5 ⟨none, none, some JsNum.nan, none, none⟩
      { id := "a", subject := "s", content := "c", dateCreated := 0,
        dateUpdated := 0, expiresAt := some 3, embedding := none })
    (List.mem_singleton.mpr rfl) rfl

namespace MemoryStore

/-- The rows a successful bulk import appends: item `j` of the batch becomes
`importRow (newId (i + j)) now`. -/
def importRows (newId : ℕ → String) (now : ℤ) : ℕ → List ImportItem → Store
  | _, [] => []
  | i, it :: rest => importRow (newId i) now it :: importRows newId now (i + 1) rest

theorem importGo_spec (err : ImportItem → Option String) (newId : ℕ → String)
    (now : ℤ) :
    ∀ (items : List ImportItem) (i : ℕ) (acc : Store),
      (items.findSome? err = none →
        importGo err newId now items i acc = .ok (acc ++ importRows newId now i items))
      ∧ ∀ e, items.findSome? err = some e →
        importGo err newId now items i acc = .error e := by
  intro items
  induction items with
  | nil => intro i acc; simp [importGo, importRows, List.findSome?]
  | cons it rest ih =>
    intro i acc
    cases herr : err it with
    | some e =>
      constructor
      · intro hnone
        rw [List.findSome?_cons] at hnone
        simp [herr] at hnone
      · intro e' hsome
        rw [List.findSome?_cons] at hsome
        simp only [herr] at hsome
        simp only [importGo, herr]
        simp at hsome
        rw [hsome]
    | none =>
      constructor
      · intro hnone
        rw [List.findSome?_cons] at hnone
        simp only [herr] at hnone
        simp only [importGo, herr, importRows]
        rw [(ih (i + 1) (acc ++ [importRow (newId i) now it])).1 hnone]
        simp
      · intro e' hsome
        rw [List.findSome?_cons] at hsome
        simp only [herr] at hsome
        simp only [importGo, herr]
        exact (ih (i + 1) (acc ++ [importRow (newId i) now it])).2 e' hsome

end MemoryStore

/-- Claim C2: `importAll` is all-or-nothing.  The reported error is exactly
the first per-row insert error (`findSome?`); when no row fails the final
table is the snapshot plus one fresh row per item (fresh id from the
generator, both timestamps set to the call time); when any row fails the
final table is exactly the snapshot, whether or not the ROLLBACK statement
itself fails (`rb` is swallowed), and the original error is re-thrown. -/
theorem C2_importAll_atomic (err : MemoryStore.ImportItem → Option String)
    (newId : ℕ → String) (now : ℤ) (rb : Bool)
    (items : List MemoryStore.ImportItem) (st : MemoryStore.Store) :
    (MemoryStore.importAll err newId now rb items st).2 = items.findSome? err
    ∧ (items.findSome? err = none →
        (MemoryStore.importAll err newId now rb items st).1 =
          st ++ MemoryStore.importRows newId now 0 items)
    ∧ (∀ e, items.findSome? err = some e →
        (MemoryStore.importAll err newId now rb items st).1 = st)
    ∧ (∀ i it, (MemoryStore.importRow (newId i) now it).id = newId i
        ∧ (MemoryStore.importRow (newId i) now it).dateCreated = now
        ∧ (MemoryStore.importRow (newId i) now it).dateUpdated = now) := by
  have hspec := MemoryStore.importGo_spec err newId now items 0 st
  refine ⟨?_, ?_, ?_, ?_⟩
  · cases hfs : items.findSome? err with
    | none =>
      unfold MemoryStore.importAll
      rw [hspec.1 hfs]
    | some e =>
      unfold MemoryStore.importAll
      rw [hspec.2 e hfs]
  · intro hfs
    unfold MemoryStore.importAll
    rw [hspec.1 hfs]
  · intro e hfs
    unfold MemoryStore.importAll
    rw [hspec.2 e hfs]
  · intro i it
    exact ⟨rfl, rfl, rfl⟩

theorem C2_importAll_atomic_witness :
    ((MemoryStore.importAll
        (fun it => if it.subject = "bad" then some "constraint" else none)
        (fun i => "id" ++ toString i) 7 true
        [⟨"ok", "c1", none, none⟩, ⟨"bad", "c2", none, none⟩]
        []).1 = []
      ∧ (MemoryStore.importAll
        (fun it => if it.subject = "bad" then some "constraint" else none)
        (fun i => "id" ++ toString i) 7 true
        [⟨"ok", "c1", none, none⟩, ⟨"bad", "c2", none, none⟩]
        []).2 = some "constraint") := by
  have h := C2_importAll_atomic
    (fun it => if it.subject = "bad" then some "constraint" else none)
    (fun i => "id" ++ toString i) 7 true
    [⟨"ok", "c1", none, none⟩, ⟨"bad", "c2", none, none⟩] []
  have hfs : ([⟨"ok", "c1", none, none⟩,
      (⟨"bad", "c2", none, none⟩ : MemoryStore.ImportItem)].findSome?
        (fun it => if it.subject = "bad" then some "constraint" else none))
      = some "constraint" := by
    simp [List.findSome?_cons]
  exact ⟨h.2.2.1 "constraint" hfs, h.1.trans hfs⟩

namespace MemoryStore

theorem rowToItem_id (r : Row) : (rowToItem r).id = r.id := rfl

theorem mem_sortByUpdatedDesc {r : Row} {st : Store} :
    r ∈ sortByUpdatedDesc st ↔ r ∈ st := by
  simp [sortByUpdatedDesc]

theorem list_subset (st : Store) (n : ℕ) :
    ∀ it ∈ list st n, ∃ r ∈ st, it = rowToItem r := by
  intro it hit
  simp only [list, List.mem_map] at hit
  obtain ⟨r, hr, hq⟩ := hit
  exact ⟨r, mem_sortByUpdatedDesc.mp (List.mem_of_mem_take hr), hq.symm⟩

theorem rankBySim_subset (qe : List ℚ) (k : ℕ) (items : List Item) :
    ∀ it ∈ rankBySim qe k items, it ∈ items := by
  intro it hit
  simp only [rankBySim, List.mem_map] at hit
  obtain ⟨pr, hpr, hq⟩ := hit
  have h1 := List.mem_of_mem_take hpr
  rw [List.mem_mergeSort, List.mem_map] at h1
  obtain ⟨it', hit', hq'⟩ := h1
  rw [← hq, ← hq']
  exact hit'

theorem search_subset (env : FtsEnv) (st : Store) (q : Option String) (k : ℕ)
    (e : Option (List JsNum)) :
    ∀ it ∈ search env st q k e, ∃ r ∈ st, it = rowToItem r := by
  intro it hit
  simp only [search] at hit
  split at hit
  · have h1 := rankBySim_subset _ _ _ it hit
    rw [List.mem_map] at h1
    obtain ⟨r, hr, hq⟩ := h1
    exact ⟨r, (List.mem_filter.mp
      (mem_sortByUpdatedDesc.mp (List.mem_of_mem_take hr))).1, hq.symm⟩
  · exact list_subset st _ it hit
  · split at hit
    · split at hit
      · rw [List.mem_map] at hit
        obtain ⟨r, hr, hq⟩ := hit
        exact ⟨r, (List.mem_filter.mp (List.mem_of_mem_take hr)).1, hq.symm⟩
      · have h1 := rankBySim_subset _ _ _ it hit
        rw [List.mem_map] at h1
        obtain ⟨r, hr, hq⟩ := h1
        exact ⟨r, (List.mem_filter.mp (List.mem_of_mem_take hr)).1, hq.symm⟩
    · split at hit
      · rw [List.mem_map] at hit
        obtain ⟨r, hr, hq⟩ := hit
        exact ⟨r, (List.mem_filter.mp
          (mem_sortByUpdatedDesc.mp (List.mem_of_mem_take hr))).1, hq.symm⟩
      · have h1 := rankBySim_subset _ _ _ it hit
        rw [List.mem_map] at h1
        obtain ⟨r, hr, hq⟩ := h1
        exact ⟨r, (List.mem_filter.mp
          (mem_sortByUpdatedDesc.mp (List.mem_of_mem_take hr))).1, hq.symm⟩

theorem find?_eq_of_nodup_ids (st : Store) (r : Row)
    (hnd : (st.map Row.id).Nodup) (hr : r ∈ st) :
    st.find? (fun r' => r'.id == r.id) = some r := by
  induction st with
  | nil => simp at hr
  | cons h rest ih =>
    simp only [List.map_cons, List.nodup_cons] at hnd
    rcases List.mem_cons.mp hr with heq | hmem
    · subst heq
      simp [List.find?_cons]
    · have hne : (h.id == r.id) = false := by
        simp only [beq_eq_false_iff_ne, ne_eq]
        intro hid
        exact hnd.1 (hid ▸ List.mem_map_of_mem Row.id hmem)
      simpa [List.find?_cons, hne] using ih hnd.2 hmem

theorem id_unique_of_nodup (st : Store) (r r' : Row)
    (hnd : (st.map Row.id).Nodup) (hr : r ∈ st) (hr' : r' ∈ st)
    (hid : r'.id = r.id) : r' = r :=
  List.inj_on_of_nodup_map hnd hr' hr hid

end MemoryStore

/-- Claim C4: a record whose `expiresAt` is in the past is still returned by
`get` before `cleanupExpired` runs (`get` performs no expiry sweep); after
`cleanupExpired` it is deleted and therefore absent from `get`, `list` and
`search`; and `cleanupExpired` deletes exactly the rows whose `expiresAt` is
non-null and `≤ now`. -/
theorem C4_lazy_expiry (st : MemoryStore.Store) (now : ℤ) (r : Row) (t : ℤ)
    (hnd : (st.map Row.id).Nodup) (hr : r ∈ st) (ht : r.expiresAt = some t)
    (hle : t ≤ now) :
    MemoryStore.get st r.id = some (MemoryStore.rowToItem r)
    ∧ MemoryStore.get (MemoryStore.cleanupExpired now st) r.id = none
    ∧ (∀ n, r.id ∉ (MemoryStore.list (MemoryStore.cleanupExpired now st) n).map Item.id)
    ∧ (∀ env q k e,
        r.id ∉ (MemoryStore.search env (MemoryStore.cleanupExpired now st) q k e).map Item.id)
    ∧ MemoryStore.cleanupExpired now st
        = st.filter (fun r' => !MemoryStore.isExpired now r') := by
  have hexp : MemoryStore.isExpired now r = true := by
    simp [MemoryStore.isExpired, ht, hle]
  have hclean : ∀ r' ∈ MemoryStore.cleanupExpired now st, r'.id ≠ r.id := by
    intro r' hr' hid
    have hmem := List.mem_filter.mp hr'
    have : r' = r := MemoryStore.id_unique_of_nodup st r r' hnd hr hmem.1 hid
    rw [this, hexp] at hmem
    simp at hmem
  refine ⟨?_, ?_, ?_, ?_, rfl⟩
  · unfold MemoryStore.get
    rw [MemoryStore.find?_eq_of_nodup_ids st r hnd hr]
    rfl
  · unfold MemoryStore.get
    rw [List.find?_eq_none.mpr]
    · rfl
    · intro r' hr'
      simpa using hclean r' hr'
  · intro n hmem
    rw [List.mem_map] at hmem
    obtain ⟨it, hit, hid⟩ := hmem
    obtain ⟨r', hr', hq⟩ := MemoryStore.list_subset _ _ it hit
    exact hclean r' hr' (by rw [← hid, hq, MemoryStore.rowToItem_id])
  · intro env q k e hmem
    rw [List.mem_map] at hmem
    obtain ⟨it, hit, hid⟩ := hmem
    obtain ⟨r', hr', hq⟩ := MemoryStore.search_subset env _ q k e it hit
    exact hclean r' hr' (by rw [← hid, hq, MemoryStore.rowToItem_id])

theorem C4_lazy_expiry_witness :
    MemoryStore.get
        [{ id := "a", subject := "s", content := "c", dateCreated := 0,
           dateUpdated := 0, expiresAt := some 3, embedding := none }] "a"
      = some (MemoryStore.rowToItem
        { id := "a", subject := "s", content := "c", dateCreated := 0,
          dateUpdated := 0, expiresAt := some 3, embedding := none })
    ∧ MemoryStore.get
        (MemoryStore.cleanupExpired 5
          [{ id := "a", subject := "s", content := "c", dateCreated := 0,
             dateUpdated := 0, expiresAt := some 3, embedding := none }]) "a"
      = none := by
  have h := C4_lazy_expiry
    [{ id := "a", subject := "s", content := "c", dateCreated := 0,
       dateUpdated := 0, expiresAt := some 3, embedding := none }] 5
    { id := "a", subject := "s", content := "c", dateCreated := 0,
      dateUpdated := 0, expiresAt := some 3, embedding := none } 3
    (by simp) (by simp) rfl (by norm_num)
  exact ⟨h.1, h.2.1⟩

namespace MemoryStore

theorem length_rankBySim_le (qe : List ℚ) (k : ℕ) (items : List Item) :
    (rankBySim qe k items).length ≤ k := by
  simp only [rankBySim, List.length_map, List.length_take]
  exact min_le_left _ _

theorem length_list_le (st : Store) (n : ℕ) : (list st n).length ≤ n := by
  simp only [list, List.length_map, List.length_take]
  exact min_le_left _ _

end MemoryStore

/-- Claim C1, counterexample: with no query text and no query vector,
`search` does not truncate to `k`: it returns the plain recency list bounded
only by `max(50, 4k)`, so a store of two rows queried with `k = 1` yields 2
items. -/
theorem C1_counterexample :
    1 < (MemoryStore.search ⟨fun _ => true, fun _ _ => false⟩
        [{ id := "a", subject := "s", content := "c", dateCreated := 0,
           dateUpdated := 0, expiresAt := none, embedding := none },
         { id := "b", subject := "s2", content := "c2", dateCreated := 0,
           dateUpdated := 0, expiresAt := none, embedding := none }]
        none 1 none).length := by
  have hhq : decide (0 < (MemoryStore.jsTrim "").length) = false := by decide
  simp [MemoryStore.search, MemoryStore.list, hhq, normalizeEmbedding,
    MemoryStore.sortByUpdatedDesc]

/-- Claim C1 (amended): `search` returns at most `k` items exactly in the
branches where a normalized query vector is in play (vector-only, and
text-plus-vector through either the indexed path or the LIKE fallback);
when no query vector survives normalization, the result is only bounded by
`max(4k, 50)` (the no-text branch returns the recency list bounded by
`max(50, 4k)`, and the text branch returns up to `4k` matches untruncated). -/
theorem C1_amended_search_bound (env : MemoryStore.FtsEnv)
    (st : MemoryStore.Store) (q : Option String) (k : ℕ)
    (e : Option (List JsNum)) :
    ((normalizeEmbedding (e.map jsArr)).isSome →
      (MemoryStore.search env st q k e).length ≤ k)
    ∧ ((normalizeEmbedding (e.map jsArr)) = none →
      (MemoryStore.search env st q k e).length ≤ max (k * 4) 50) := by
  constructor
  · intro h
    simp only [MemoryStore.search]
    split
    · exact MemoryStore.length_rankBySim_le _ _ _
    · rename_i heq
      rw [heq] at h
      simp at h
    · cases hqe2 : normalizeEmbedding (Option.map jsArr e) with
      | none => rw [hqe2] at h; simp at h
      | some qv =>
        by_cases hok : env.ok (MemoryStore.jsTrim (q.getD ""))
        · rw [if_pos hok]
          exact MemoryStore.length_rankBySim_le _ _ _
        · rw [if_neg hok]
          exact MemoryStore.length_rankBySim_le _ _ _
  · intro h
    simp only [MemoryStore.search]
    rw [h]
    split
    · rename_i heq
      exact absurd heq (by simp)
    · simp [MemoryStore.list, MemoryStore.sortByUpdatedDesc]
      omega
    · by_cases hok : env.ok (MemoryStore.jsTrim (q.getD ""))
      · rw [if_pos hok]
        simp [MemoryStore.sortByUpdatedDesc]
      · rw [if_neg hok]
        simp [MemoryStore.sortByUpdatedDesc]

theorem C1_amended_search_bound_witness :
    ((normalizeEmbedding ((some [JsNum.fin 1]).map jsArr)).isSome →
      (MemoryStore.search ⟨fun _ => true, fun _ _ => false⟩ [] none 2
        (some [JsNum.fin 1])).length ≤ 2)
    ∧ ((normalizeEmbedding ((none : Option (List JsNum)).map jsArr)) = none →
      (MemoryStore.search ⟨fun _ => true, fun _ _ => false⟩ [] none 2
        none).length ≤ max (2 * 4) 50)
    ∧ (normalizeEmbedding ((some [JsNum.fin 1]).map jsArr)).isSome
    ∧ normalizeEmbedding ((none : Option (List JsNum)).map jsArr) = none :=
  ⟨(C1_amended_search_bound ⟨fun _ => true, fun _ _ => false⟩ [] none 2
      (some [JsNum.fin 1])).1,
   (C1_amended_search_bound ⟨fun _ => true, fun _ _ => false⟩ [] none 2 none).2,
   by simp [normalizeEmbedding, jsArr, cleanNums],
   by simp [normalizeEmbedding]⟩

/-- The Embedding Provider interface (src/embeddings.ts): both calls may
fail, modelled as `Except`. -/
structure Provider where
  embedDocument : String → Except String (List JsNum)
  embedQuery : String → Except String (List JsNum)

/-- Function `tryEmbedDocument` (part_005 lines 30-39 / 937-946): `none`
without a provider; a provider failure is caught, logged and turned into
`none`, never re-thrown. -/
def tryEmbedDocument (p? : Option Provider) (text : String) : Option (List JsNum) :=
  match p? with
  | none => none
  | some p =>
    match p.embedDocument text with
    | .ok v => some v
    | .error _ => none

/-- Function `tryEmbedQuery` (part_005 lines 41-50 / 948-957). -/
def tryEmbedQuery (p? : Option Provider) (text : String) : Option (List JsNum) :=
  match p? with
  | none => none
  | some p =>
    match p.embedQuery text with
    | .ok v => some v
    | .error _ => none

/-- Function `memoryToEmbeddingText` (part_005): subject and content joined
by a blank line, trimmed. -/
def memoryToEmbeddingText (subject content : String) : String :=
  MemoryStore.jsTrim (subject ++ "\n\n" ++ content)

/-- The cleaning loop of `sanitizeEmbeddingInput` (part_005 lines 19-28):
keep finite numbers and stop once `cap` are kept. -/
def cleanFinite (cap : ℕ) : List JsNum → List JsNum
  | [] => []
  | x :: rest =>
    if x.isFinite then
      if cap ≤ 1 then [x] else x :: cleanFinite (cap - 1) rest
    else cleanFinite cap rest

/-- Function `sanitizeEmbeddingInput` (part_005 lines 19-28 / 926-935). -/
def sanitizeEmbeddingInput (vec : Option (List JsNum)) : Option (List JsNum) :=
  match vec with
  | none => none
  | some l =>
    let cleaned := cleanFinite 4096 l
    if cleaned.length > 0 then some cleaned else none

/-- The embedding choice made by the remember and import handlers of the
owner-scoped variant (part_005 lines 618-621 and 767-770): the sanitized
caller-supplied vector when present, otherwise the provider document
embedding. -/
def chooseDocEmbedding (p? : Option Provider) (provided : Option (List JsNum))
    (subject content : String) : Option (List JsNum) :=
  match sanitizeEmbeddingInput provided with
  | some v => some v
  | none => tryEmbedDocument p? (memoryToEmbeddingText subject content)

/-- The memory-create handler of the v2 minimal server (part_005 lines
996-1006): sweep expired rows, auto-embed, insert. -/
def createOp (p? : Option Provider) (newId : String) (now : ℤ)
    (subject content : String) (ttl : Option JsNum) (st : MemoryStore.Store) :
    MemoryStore.Store × String :=
  let st1 := MemoryStore.cleanupExpired now st
  let ttlDays := match ttl with
    | some x => if x.isFinite then some x else none
    | none => none
  let autoEmbedding := tryEmbedDocument p? (memoryToEmbeddingText subject content)
  MemoryStore.insert newId now subject content ttlDays autoEmbedding st1

/-- The memory-search handler of the v2 minimal server (part_005 lines
1011-1018): sweep, embed the query when the query string is truthy, search. -/
noncomputable def searchOp (env : MemoryStore.FtsEnv) (p? : Option Provider)
    (now : ℤ) (q : Option String) (k : ℕ) (st : MemoryStore.Store) : List Item :=
  let st1 := MemoryStore.cleanupExpired now st
  let qEmbedding := match q with
    | some s => if s = "" then none else tryEmbedQuery p? s
    | none => none
  MemoryStore.search env st1 q k qEmbedding

/-- Claim C8: a failure of the Embedding Provider's `embedDocument` or
`embedQuery` is caught at the boundary and treated as "no embedding": the
surrounding create/search/remember/import pipeline completes exactly as it
would with no provider at all, and the provider's error is never propagated
to the caller. -/
theorem C8_embedding_failure_swallowed :
    (∀ (p : Provider) (t msg : String), p.embedDocument t = .error msg →
      tryEmbedDocument (some p) t = none)
    ∧ (∀ (p : Provider) (t msg : String), p.embedQuery t = .error msg →
      tryEmbedQuery (some p) t = none)
    ∧ (∀ (p : Provider) (newId : String) (now : ℤ) (subject content : String)
        (ttl : Option JsNum) (st : MemoryStore.Store) (msg : String),
      p.embedDocument (memoryToEmbeddingText subject content) = .error msg →
      createOp (some p) newId now subject content ttl st =
        createOp none newId now subject content ttl st)
    ∧ (∀ (env : MemoryStore.FtsEnv) (p : Provider) (now : ℤ) (s : String)
        (k : ℕ) (st : MemoryStore.Store) (msg : String),
      p.embedQuery s = .error msg →
      searchOp env (some p) now (some s) k st = searchOp env none now (some s) k st)
    ∧ (∀ (p : Provider) (provided : Option (List JsNum))
        (subject content msg : String),
      p.embedDocument (memoryToEmbeddingText subject content) = .error msg →
      chooseDocEmbedding (some p) provided subject content =
        chooseDocEmbedding none provided subject content) := by
  have hdoc : ∀ (p : Provider) (t msg : String), p.embedDocument t = .error msg →
      tryEmbedDocument (some p) t = none := by
    intro p t msg h
    simp [tryEmbedDocument, h]
  have hq : ∀ (p : Provider) (t msg : String), p.embedQuery t = .error msg →
      tryEmbedQuery (some p) t = none := by
    intro p t msg h
    simp [tryEmbedQuery, h]
  refine ⟨hdoc, hq, ?_, ?_, ?_⟩
  · intro p newId now subject content ttl st msg h
    simp only [createOp, tryEmbedDocument, h]
  · intro env p now s k st msg h
    by_cases hs : s = ""
    · simp [searchOp, hs]
    · simp only [searchOp, tryEmbedQuery, hs, if_false, h, if_neg]
  · intro p provided subject content msg h
    simp only [chooseDocEmbedding, tryEmbedDocument, h]

theorem C8_embedding_failure_swallowed_witness :
    tryEmbedDocument (some ⟨fun _ => .error "rate limit", fun _ => .error "rate limit"⟩)
        "favorite color" = none
    ∧ createOp (some ⟨fun _ => .error "rate limit", fun _ => .error "rate limit"⟩)
        "id0" 7 "favorite color" "blue" none [] =
      createOp none "id0" 7 "favorite color" "blue" none []
    ∧ searchOp ⟨fun _ => true, fun _ _ => false⟩
        (some ⟨fun _ => .error "rate limit", fun _ => .error "rate limit"⟩)
        7 (some "color") 3 [] =
      searchOp ⟨fun _ => true, fun _ _ => false⟩ none 7 (some "color") 3 [] :=
  ⟨C8_embedding_failure_swallowed.1 _ "favorite color" "rate limit" rfl,
   C8_embedding_failure_swallowed.2.2.1 _ "id0" 7 "favorite color" "blue" none []
     "rate limit" rfl,
   C8_embedding_failure_swallowed.2.2.2.1 ⟨fun _ => true, fun _ _ => false⟩ _ 7
     "color" 3 [] "rate limit" rfl⟩

/-- The finite numeric elements of a JS array, in order. -/
def jxNums (xs : List Jx) : List ℚ :=
  xs.filterMap (fun x =>
    match x with
    | .num (JsNum.fin q) => some q
    | _ => none)

theorem cleanNums_eq_take :
    ∀ (xs : List Jx) (cap : ℕ), 1 ≤ cap →
      cleanNums cap xs = (jxNums xs).take cap := by
  intro xs
  induction xs with
  | nil => intro cap _; simp [cleanNums, jxNums]
  | cons x rest ih =>
    intro cap hcap
    cases x with
    | num n =>
      cases n with
      | fin q =>
        cases cap with
        | zero => omega
        | succ m =>
          cases m with
          | zero => simp [cleanNums, jxNums, List.filterMap_cons]
          | succ m2 =>
            have h1 : ¬(m2 + 1 + 1 ≤ 1) := by omega
            simp only [cleanNums, jxNums, List.filterMap_cons, h1, if_false,
              Nat.add_sub_cancel, List.take_succ_cons]
            rw [ih (m2 + 1) (by omega)]
            rfl
      | nan => simp [cleanNums, jxNums, List.filterMap_cons, ih cap hcap]
      | inf => simp [cleanNums, jxNums, List.filterMap_cons, ih cap hcap]
      | ninf => simp [cleanNums, jxNums, List.filterMap_cons, ih cap hcap]
    | arr elems => simp [cleanNums, jxNums, List.filterMap_cons, ih cap hcap]
    | other => simp [cleanNums, jxNums, List.filterMap_cons, ih cap hcap]

/-- A JSON value that is an array whose elements are all numbers. -/
def isNumberArray (v : Jx) : Prop :=
  ∃ xs, v = Jx.arr xs ∧ ∀ x ∈ xs, ∃ n : JsNum, x = Jx.num n

/-- Claim C9, counterexample: a stored value that is valid JSON but not an
array *of numbers* — the array `[1, true]` — does not map to "no embedding":
decoding keeps the numeric element and yields the embedding `[1]`. -/
theorem C9_counterexample :
    ¬ isNumberArray (Jx.arr [Jx.num (JsNum.fin 1), Jx.other])
    ∧ parseEmbedding (some (EmbCol.json (Jx.arr [Jx.num (JsNum.fin 1), Jx.other])))
      = some [1] := by
  constructor
  · rintro ⟨xs, hxs, hall⟩
    obtain rfl : xs = [Jx.num (JsNum.fin 1), Jx.other] := (Jx.arr.injEq _ _).mp hxs.symm
    obtain ⟨n, hn⟩ := hall Jx.other (by simp)
    exact Jx.noConfusion hn
  · rfl

/-- Claim C9 (amended): decoding a stored embedding column never throws: a
null column, malformed JSON, or JSON that is not an array decodes to "no
embedding"; an array decodes to exactly its finite numeric elements capped
at 4096 components, dropping to "no embedding" when none survive.  Every
embedding that decodes — and every embedding accepted for storage by
`normalizeEmbedding` — is non-empty and has at most 4096 components, and
non-finite components are dropped rather than fatally rejected. -/
theorem C9_amended_embedding_decode :
    parseEmbedding none = none
    ∧ parseEmbedding (some EmbCol.malformed) = none
    ∧ (∀ v : Jx, (¬ ∃ xs, v = Jx.arr xs) →
        parseEmbedding (some (EmbCol.json v)) = none)
    ∧ (∀ xs : List Jx, parseEmbedding (some (EmbCol.json (Jx.arr xs))) =
        (if (jxNums xs).take 4096 = [] then none else some ((jxNums xs).take 4096)))
    ∧ (∀ (raw : Option EmbCol) (l : List ℚ), parseEmbedding raw = some l →
        l ≠ [] ∧ l.length ≤ 4096)
    ∧ (∀ (e : Option Jx) (l : List ℚ), normalizeEmbedding e = some l →
        l ≠ [] ∧ l.length ≤ 4096) := by
  have harr : ∀ xs : List Jx, parseEmbedding (some (EmbCol.json (Jx.arr xs))) =
      (if (jxNums xs).take 4096 = [] then none
       else some ((jxNums xs).take 4096)) := by
    intro xs
    simp only [parseEmbedding, normalizeEmbedding,
      cleanNums_eq_take xs 4096 (by omega)]
    by_cases hnil : (jxNums xs).take 4096 = []
    · simp [hnil]
    · have hne : jxNums xs ≠ [] := fun h0 => hnil (by simp [h0])
      simp [hnil, hne]
  have hnorm : ∀ (e : Option Jx) (l : List ℚ), normalizeEmbedding e = some l →
      l ≠ [] ∧ l.length ≤ 4096 := by
    intro e l h
    match e with
    | none => simp [normalizeEmbedding] at h
    | some (.num n) => simp [normalizeEmbedding] at h
    | some .other => simp [normalizeEmbedding] at h
    | some (.arr xs) =>
      simp only [normalizeEmbedding, cleanNums_eq_take xs 4096 (by omega)] at h
      by_cases hnil : (jxNums xs).take 4096 = []
      · rw [hnil] at h; simp at h
      · have hpos : 0 < ((jxNums xs).take 4096).length := List.length_pos.mpr hnil
        have hne2 : jxNums xs ≠ [] := fun h0 => hnil (by simp [h0])
        rw [if_pos (by simp [List.length_pos, hne2])] at h
        obtain rfl : (jxNums xs).take 4096 = l := by
          exact Option.some_injective _ h
        refine ⟨hnil, ?_⟩
        simp [List.length_take]
  refine ⟨rfl, rfl, ?_, harr, ?_, hnorm⟩
  · intro v hv
    match v with
    | .num n => rfl
    | .other => rfl
    | .arr xs => exact absurd ⟨xs, rfl⟩ hv
  · intro raw l h
    match raw with
    | none => simp [parseEmbedding] at h
    | some .malformed => simp [parseEmbedding] at h
    | some (.json v) =>
      simp only [parseEmbedding] at h
      exact hnorm (some v) l h

theorem C9_amended_embedding_decode_witness :
    parseEmbedding (some (EmbCol.json (Jx.num (JsNum.fin 2)))) = none
    ∧ parseEmbedding (some (EmbCol.json
        (Jx.arr [Jx.num (JsNum.fin 1), Jx.num JsNum.nan, Jx.other])))
      = (if (jxNums [Jx.num (JsNum.fin 1), Jx.num JsNum.nan, Jx.other]).take 4096 = []
         then none
         else some ((jxNums [Jx.num (JsNum.fin 1), Jx.num JsNum.nan, Jx.other]).take 4096))
    ∧ ([(1 : ℚ)] ≠ [] ∧ [(1 : ℚ)].length ≤ 4096) :=
  ⟨C9_amended_embedding_decode.2.2.1 (Jx.num (JsNum.fin 2))
      (by rintro ⟨xs, hxs⟩; exact Jx.noConfusion hxs),
   C9_amended_embedding_decode.2.2.2.1 [Jx.num (JsNum.fin 1), Jx.num JsNum.nan, Jx.other],
   C9_amended_embedding_decode.2.2.2.2.1
     (some (EmbCol.json (Jx.arr [Jx.num (JsNum.fin 1)]))) [1] rfl⟩

/-- Function `recencyDecay` from src/util.ts: fixed 0.6 without a timestamp,
otherwise `1 / (1 + max(days, 0) / halfLifeDays)`. -/
def recencyDecay (now : ℤ) (d : Option ℤ) (halfLifeDays : ℚ := 30) : ℚ :=
  match d with
  | none => 0.6
  | some t => 1 / (1 + max (((now - t : ℤ) : ℚ) / 86400000) 0 / halfLifeDays)

/-- A candidate of the owner-scoped recall handler, narrowed to the fields
its scoring reads. -/
structure RecallItem where
  id : String
  importance : Option ℚ
  lastUsedAt : Option ℤ
  embedding : Option (List ℚ)

/-- Weight of the text signal (part_005 line 681). -/
def baseTextWeight (hasQuery : Bool) (qe : Option (List ℚ)) : ℚ :=
  if hasQuery then (if qe.isSome then 0.4 else 0.55) else 0

/-- Weight of the vector signal (part_005 line 682). -/
def baseEmbedWeight (hasQuery : Bool) (qe : Option (List ℚ)) : ℚ :=
  if qe.isSome then (if hasQuery then 0.35 else 0.6) else 0

/-- Weight of the recency signal (part_005 line 683). -/
def baseRecWeight : ℚ := 0.15

/-- Weight of the importance signal (part_005 line 684). -/
def baseImportanceWeight : ℚ := 0.1

/-- The score divisor (part_005 line 685): the sum of the weights in play,
with the JS `|| 1` guard against a zero sum. -/
def weightSum (hasQuery : Bool) (qe : Option (List ℚ)) : ℚ :=
  if baseTextWeight hasQuery qe + baseEmbedWeight hasQuery qe
      + baseRecWeight + baseImportanceWeight = 0 then 1
  else baseTextWeight hasQuery qe + baseEmbedWeight hasQuery qe
      + baseRecWeight + baseImportanceWeight

/-- Text signal of one candidate (part_005 line 689). -/
def textScoreOf (hasQuery : Bool) (textMatches : List String) (m : RecallItem) : ℚ :=
  if hasQuery then (if m.id ∈ textMatches then 1 else 0.3) else 0.5

/-- Vector signal of one candidate (part_005 line 690): cosine similarity
clamped to `≥ 0` when both vectors exist, else 0. -/
noncomputable def embedScoreOf (qe : Option (List ℚ)) (m : RecallItem) : ℝ :=
  match qe, m.embedding with
  | some q, some v =>
    max (cosineSimilarity (some (q.map JsNum.fin)) (some (v.map JsNum.fin))) 0
  | _, _ => 0

/-- The composite score of one candidate (part_005 lines 688-699). -/
noncomputable def recallScore (hasQuery : Bool) (qe : Option (List ℚ))
    (textMatches : List String) (now : ℤ) (m : RecallItem) : ℝ :=
  ((textScoreOf hasQuery textMatches m : ℝ) * (baseTextWeight hasQuery qe : ℝ)
    + embedScoreOf qe m * (baseEmbedWeight hasQuery qe : ℝ)
    + (recencyDecay now m.lastUsedAt 30 : ℝ) * (baseRecWeight : ℝ)
    + ((m.importance.getD 0.5 : ℚ) : ℝ) * (baseImportanceWeight : ℝ))
    / ((weightSum hasQuery qe : ℚ) : ℝ)

/-- The ranked slice returned by the recall handler (part_005 lines
687-703): score every candidate, stable-sort descending by score, truncate
to `topk`. -/
noncomputable def recallRank (hasQuery : Bool) (qe : Option (List ℚ))
    (textMatches : List String) (now : ℤ) (topk : ℕ)
    (candidates : List RecallItem) : List RecallItem :=
  (((candidates.map (fun m => (m, recallScore hasQuery qe textMatches now m))).mergeSort
      (fun a b => decide (b.2 ≤ a.2))).take topk).map Prod.fst

theorem weightSum_eq (h : Bool) (qe : Option (List ℚ)) :
    weightSum h qe = baseTextWeight h qe + baseEmbedWeight h qe
      + baseRecWeight + baseImportanceWeight := by
  cases h <;> rcases qe with _ | q <;>
    norm_num [weightSum, baseTextWeight, baseEmbedWeight, baseRecWeight,
      baseImportanceWeight]

theorem weightSum_pos (h : Bool) (qe : Option (List ℚ)) : 0 < weightSum h qe := by
  cases h <;> rcases qe with _ | q <;>
    norm_num [weightSum, baseTextWeight, baseEmbedWeight, baseRecWeight,
      baseImportanceWeight]

theorem baseTextWeight_bounds (h : Bool) (qe : Option (List ℚ)) :
    0 ≤ baseTextWeight h qe ∧ baseTextWeight h qe ≤ 1 := by
  cases h <;> rcases qe with _ | q <;> norm_num [baseTextWeight]

theorem baseEmbedWeight_bounds (h : Bool) (qe : Option (List ℚ)) :
    0 ≤ baseEmbedWeight h qe ∧ baseEmbedWeight h qe ≤ 1 := by
  cases h <;> rcases qe with _ | q <;> norm_num [baseEmbedWeight]

theorem textScoreOf_bounds (h : Bool) (tm : List String) (m : RecallItem) :
    0 ≤ textScoreOf h tm m ∧ textScoreOf h tm m ≤ 1 := by
  unfold textScoreOf
  split_ifs <;> norm_num

theorem embedScoreOf_bounds (qe : Option (List ℚ)) (m : RecallItem) :
    0 ≤ embedScoreOf qe m ∧ embedScoreOf qe m ≤ 1 := by
  unfold embedScoreOf
  rcases qe with _ | q <;> rcases hv : m.embedding with _ | v <;>
    simp only []
  · exact ⟨le_refl 0, by norm_num⟩
  · exact ⟨le_refl 0, by norm_num⟩
  · exact ⟨le_refl 0, by norm_num⟩
  · constructor
    · exact le_max_right _ _
    · exact max_le (cosineSimilarity_le_one _ _) (by norm_num)

theorem recencyDecay_bounds (now : ℤ) (d : Option ℤ) :
    0 ≤ recencyDecay now d 30 ∧ recencyDecay now d 30 ≤ 1 := by
  rcases d with _ | t
  · norm_num [recencyDecay]
  · unfold recencyDecay
    have hmax : (0 : ℚ) ≤ max (((now - t : ℤ) : ℚ) / 86400000) 0 := le_max_right _ _
    have hden : (1 : ℚ) ≤ 1 + max (((now - t : ℤ) : ℚ) / 86400000) 0 / 30 := by
      have := div_nonneg hmax (by norm_num : (0 : ℚ) ≤ 30)
      linarith
    constructor
    · positivity
    · rw [div_le_one (by linarith)]
      linarith

theorem embedScoreOf_none (m : RecallItem) : embedScoreOf none m = 0 := rfl

/-- Claim C6: every candidate's recall score is the weighted sum of the
text, vector, recency and importance signals divided by the sum of the
weights actually in play (the `|| 1` fallback never fires, so the divisor is
never a hard-coded constant); every score lies in `[0, 1]` when the stored
importance respects its 0..1 schema bound; and with no query text and no
query vector each score equals the normalized combination
`(0.15 * recency + 0.10 * importance) / 0.25` and the ranked output is
sorted descending by score. -/
theorem C6_recall_score_normalized :
    (∀ (h : Bool) (qe : Option (List ℚ)) (tm : List String) (now : ℤ)
        (m : RecallItem),
      weightSum h qe = baseTextWeight h qe + baseEmbedWeight h qe
          + baseRecWeight + baseImportanceWeight
      ∧ recallScore h qe tm now m =
        ((textScoreOf h tm m : ℝ) * (baseTextWeight h qe : ℝ)
          + embedScoreOf qe m * (baseEmbedWeight h qe : ℝ)
          + (recencyDecay now m.lastUsedAt 30 : ℝ) * (baseRecWeight : ℝ)
          + ((m.importance.getD 0.5 : ℚ) : ℝ) * (baseImportanceWeight : ℝ))
        / ((baseTextWeight h qe + baseEmbedWeight h qe
            + baseRecWeight + baseImportanceWeight : ℚ) : ℝ))
    ∧ (∀ (h : Bool) (qe : Option (List ℚ)) (tm : List String) (now : ℤ)
        (m : RecallItem), (∀ q, m.importance = some q → 0 ≤ q ∧ q ≤ 1) →
      0 ≤ recallScore h qe tm now m ∧ recallScore h qe tm now m ≤ 1)
    ∧ (∀ (tm : List String) (now : ℤ) (m : RecallItem),
      recallScore false none tm now m =
        (((0.15 * recencyDecay now m.lastUsedAt 30
          + 0.1 * m.importance.getD 0.5) / 0.25 : ℚ) : ℝ))
    ∧ (∀ (h : Bool) (qe : Option (List ℚ)) (tm : List String) (now : ℤ)
        (topk : ℕ) (cs : List RecallItem),
      (recallRank h qe tm now topk cs).Pairwise
        (fun a b => recallScore h qe tm now b ≤ recallScore h qe tm now a)) := by
  refine ⟨?_, ?_, ?_, ?_⟩
  · intro h qe tm now m
    refine ⟨weightSum_eq h qe, ?_⟩
    rw [recallScore, weightSum_eq h qe]
  · intro h qe tm now m himp
    obtain ⟨ht0, ht1⟩ := textScoreOf_bounds h tm m
    obtain ⟨he0, he1⟩ := embedScoreOf_bounds qe m
    obtain ⟨hr0, hr1⟩ := recencyDecay_bounds now m.lastUsedAt
    have hi : 0 ≤ m.importance.getD 0.5 ∧ m.importance.getD 0.5 ≤ 1 := by
      rcases hq : m.importance with _ | q
      · norm_num
      · simpa using himp q hq
    obtain ⟨hwt0, hwt1⟩ := baseTextWeight_bounds h qe
    obtain ⟨hwe0, hwe1⟩ := baseEmbedWeight_bounds h qe
    have hS : (0 : ℝ) < ((weightSum h qe : ℚ) : ℝ) := by
      exact_mod_cast weightSum_pos h qe
    have ht0' : (0 : ℝ) ≤ (textScoreOf h tm m : ℝ) := by exact_mod_cast ht0
    have ht1' : ((textScoreOf h tm m : ℚ) : ℝ) ≤ 1 := by exact_mod_cast ht1
    have hr0' : (0 : ℝ) ≤ ((recencyDecay now m.lastUsedAt 30 : ℚ) : ℝ) := by
      exact_mod_cast hr0
    have hr1' : ((recencyDecay now m.lastUsedAt 30 : ℚ) : ℝ) ≤ 1 := by
      exact_mod_cast hr1
    have hi0' : (0 : ℝ) ≤ ((m.importance.getD 0.5 : ℚ) : ℝ) := by
      exact_mod_cast hi.1
    have hi1' : ((m.importance.getD 0.5 : ℚ) : ℝ) ≤ 1 := by exact_mod_cast hi.2
    have hwt0' : (0 : ℝ) ≤ ((baseTextWeight h qe : ℚ) : ℝ) := by exact_mod_cast hwt0
    have hwe0' : (0 : ℝ) ≤ ((baseEmbedWeight h qe : ℚ) : ℝ) := by exact_mod_cast hwe0
    have hSsum : ((weightSum h qe : ℚ) : ℝ) = ((baseTextWeight h qe : ℚ) : ℝ)
        + ((baseEmbedWeight h qe : ℚ) : ℝ) + ((baseRecWeight : ℚ) : ℝ)
        + ((baseImportanceWeight : ℚ) : ℝ) := by
      rw [weightSum_eq h qe]; push_cast; ring
    have hN0 : (0 : ℝ) ≤ (textScoreOf h tm m : ℝ) * (baseTextWeight h qe : ℝ)
        + embedScoreOf qe m * (baseEmbedWeight h qe : ℝ)
        + (recencyDecay now m.lastUsedAt 30 : ℝ) * (baseRecWeight : ℝ)
        + ((m.importance.getD 0.5 : ℚ) : ℝ) * (baseImportanceWeight : ℝ) := by
      have hbr : (0 : ℝ) ≤ ((baseRecWeight : ℚ) : ℝ) := by
        norm_num [baseRecWeight]
      have hbi : (0 : ℝ) ≤ ((baseImportanceWeight : ℚ) : ℝ) := by
        norm_num [baseImportanceWeight]
      have := mul_nonneg ht0' hwt0'
      have := mul_nonneg he0 hwe0'
      have := mul_nonneg hr0' hbr
      have := mul_nonneg hi0' hbi
      linarith
    have hN1 : (textScoreOf h tm m : ℝ) * (baseTextWeight h qe : ℝ)
        + embedScoreOf qe m * (baseEmbedWeight h qe : ℝ)
        + (recencyDecay now m.lastUsedAt 30 : ℝ) * (baseRecWeight : ℝ)
        + ((m.importance.getD 0.5 : ℚ) : ℝ) * (baseImportanceWeight : ℝ)
        ≤ ((weightSum h qe : ℚ) : ℝ) := by
      have h1 : (textScoreOf h tm m : ℝ) * (baseTextWeight h qe : ℝ)
          ≤ ((baseTextWeight h qe : ℚ) : ℝ) := mul_le_of_le_one_left hwt0' ht1'
      have h2 : embedScoreOf qe m * (baseEmbedWeight h qe : ℝ)
          ≤ ((baseEmbedWeight h qe : ℚ) : ℝ) := mul_le_of_le_one_left hwe0' he1
      have h3 : (recencyDecay now m.lastUsedAt 30 : ℝ) * (baseRecWeight : ℝ)
          ≤ ((baseRecWeight : ℚ) : ℝ) := by
        have hbr : (0 : ℝ) ≤ ((baseRecWeight : ℚ) : ℝ) := by
          norm_num [baseRecWeight]
        exact mul_le_of_le_one_left hbr hr1'
      have h4 : ((m.importance.getD 0.5 : ℚ) : ℝ) * (baseImportanceWeight : ℝ)
          ≤ ((baseImportanceWeight : ℚ) : ℝ) := by
        have hbi : (0 : ℝ) ≤ ((baseImportanceWeight : ℚ) : ℝ) := by
          norm_num [baseImportanceWeight]
        exact mul_le_of_le_one_left hbi hi1'
      rw [hSsum]
      linarith
    constructor
    · exact div_nonneg hN0 hS.le
    · rw [recallScore, div_le_one hS]
      exact hN1
  · intro tm now m
    rw [recallScore]
    have h1 : textScoreOf false tm m = 0.5 := rfl
    have h2 : baseTextWeight false none = 0 := rfl
    have h3 : baseEmbedWeight false none = 0 := rfl
    have h4 : weightSum false none = 0.25 := by
      norm_num [weightSum, baseTextWeight, baseEmbedWeight, baseRecWeight,
        baseImportanceWeight]
    rw [h1, h2, h3, h4, embedScoreOf_none]
    push_cast
    norm_num [baseRecWeight, baseImportanceWeight]
    ring
  · intro h qe tm now topk cs
    have htrans : ∀ (a b c : RecallItem × ℝ),
        (fun a b => decide (b.2 ≤ a.2)) a b → (fun a b => decide (b.2 ≤ a.2)) b c →
        (fun a b => decide (b.2 ≤ a.2)) a c := by
      intro a b c hab hbc
      simp only [decide_eq_true_eq] at *
      exact le_trans hbc hab
    have htotal : ∀ (a b : RecallItem × ℝ),
        ((fun a b => decide (b.2 ≤ a.2)) a b || (fun a b => decide (b.2 ≤ a.2)) b a)
          = true := by
      intro a b
      simp only [Bool.or_eq_true, decide_eq_true_eq]
      exact le_total b.2 a.2
    have hs := List.sorted_mergeSort htrans htotal
      (cs.map (fun m => (m, recallScore h qe tm now m)))
    have htake := hs.sublist (List.take_sublist topk _)
    unfold recallRank
    rw [List.pairwise_map]
    refine htake.imp_of_mem ?_
    intro p q hp hq hle
    have hmem : ∀ x, x ∈ ((cs.map (fun m => (m, recallScore h qe tm now m))).mergeSort
        (fun a b => decide (b.2 ≤ a.2))).take topk → x.2 = recallScore h qe tm now x.1 := by
      intro x hx
      have := List.mem_of_mem_take hx
      rw [List.mem_mergeSort, List.mem_map] at this
      obtain ⟨m, _, rfl⟩ := this
      rfl
    have hp2 := hmem p hp
    have hq2 := hmem q hq
    simp only [decide_eq_true_eq] at hle
    rw [← hp2, ← hq2]
    exact hle

theorem C6_recall_score_normalized_witness :
    (0 ≤ recallScore false none [] 0 ⟨"m1", some 0.7, none, none⟩
      ∧ recallScore false none [] 0 ⟨"m1", some 0.7, none, none⟩ ≤ 1)
    ∧ recallScore false none [] 0 ⟨"m1", some 0.7, none, none⟩ =
        (((0.15 * recencyDecay 0 none 30 + 0.1 * (0.7 : ℚ)) / 0.25 : ℚ) : ℝ)
    ∧ (recallRank false none [] 0 2
        [⟨"m1", some 0.7, none, none⟩, ⟨"m2", none, some 0, none⟩]).Pairwise
        (fun a b => recallScore false none [] 0 b ≤ recallScore false none [] 0 a) :=
  ⟨C6_recall_score_normalized.2.1 false none [] 0 ⟨"m1", some 0.7, none, none⟩
     (fun q hq => by rw [← Option.some_inj.mp hq]; norm_num),
   C6_recall_score_normalized.2.2.1 [] 0 ⟨"m1", some 0.7, none, none⟩,
   C6_recall_score_normalized.2.2.2 false none [] 0 2
     [⟨"m1", some 0.7, none, none⟩, ⟨"m2", none, some 0, none⟩]⟩
